import Mathlib

/-!
Shallow embedding of the core of imdb-list-bulk-uploader.user.js: the CSV
parser (parseInput, parseLine, splitCSVLine) and the sequential batch
orchestrator (processItems).  The two remote GraphQL mutations are modelled
as oracles indexed by the item position in the batch (each item issues at
most one add call and at most one edit-description call), and every read of
the mutable aborted flag is modelled as a function of the number of reads
performed so far, so that a flag that flips mid-run is expressible.
JavaScript strings that may be null or undefined and are only used for
truthiness are modelled as plain strings where the empty string stands for
the absent value.
-/

namespace BulkUploader

/-- Whitespace in the sense of the JavaScript String.trim method. -/
def jsIsWs (c : Char) : Bool :=
  decide (c = ' ' ∨ c = '\t' ∨ c = '\n' ∨ c = '\r' ∨ c = '\x0b' ∨ c = '\x0c' ∨
    c = '\u00A0' ∨ c = '\u1680' ∨ ('\u2000' ≤ c ∧ c ≤ '\u200A') ∨ c = '\u2028' ∨
    c = '\u2029' ∨ c = '\u202F' ∨ c = '\u205F' ∨ c = '\u3000' ∨ c = '\uFEFF')

/-- Model of the JavaScript String.trim method, on the character list. -/
def jsTrim (l : List Char) : List Char :=
  ((l.dropWhile jsIsWs).reverse.dropWhile jsIsWs).reverse

/-- Rebuild the current line while splitting text into lines. -/
def prependHead (c : Char) : List (List Char) → List (List Char)
  | [] => [[c]]
  | l :: ls => (c :: l) :: ls

/-- Model of the split on the regular expression CR? LF used by parseInput,
line 98 of the source: a LF, optionally preceded by a CR, separates lines;
a lone CR is not a separator and stays inside its line. -/
def splitReNewline : List Char → List (List Char)
  | [] => [[]]
  | '\r' :: '\n' :: rest => [] :: splitReNewline rest
  | '\n' :: rest => [] :: splitReNewline rest
  | c :: rest => prependHead c (splitReNewline rest)

/-- Loop of splitCSVLine (source lines 129 to 152).  The argument current
holds the characters of the field being built, in reverse order; inQuotes
is the state of the two-state quote machine of the source. -/
def splitCSVAux : List Char → List Char → Bool → List (List Char)
  | [], current, _ => [current.reverse]
  | c :: rest, current, inQuotes =>
    if c = '"' then
      if inQuotes then
        match rest with
        | c2 :: rest2 =>
          if c2 = '"' then splitCSVAux rest2 ('"' :: current) inQuotes
          else splitCSVAux (c2 :: rest2) current false
        | [] => splitCSVAux [] current false
      else splitCSVAux rest current true
    else if c = ',' ∧ inQuotes = false then
      current.reverse :: splitCSVAux rest [] inQuotes
    else splitCSVAux rest (c :: current) inQuotes

/-- splitCSVLine from the source. -/
def splitCSVLine (line : List Char) : List (List Char) :=
  splitCSVAux line [] false

/-- One parsed unit of work: the id and description produced by parseLine. -/
structure WorkItem where
  id : String
  description : String
deriving DecidableEq

/-- parseLine from the source (lines 119 to 126), on the character list of
the line. -/
def parseLineL (line : List Char) : Option WorkItem :=
  let fields := splitCSVLine line
  let idField := jsTrim (fields.headD [])
  if idField = [] then none
  else
    some ⟨idField.asString,
      if fields.length > 1 then (jsTrim (fields.getD 1 [])).asString else ""⟩

/-- parseLine from the source, taking the line as a string. -/
def parseLine (line : String) : Option WorkItem :=
  parseLineL line.toList

/-- ASCII lower-casing.  It agrees with the JavaScript toLowerCase method
on every character able to make the header comparisons of parseInput
succeed, since no character outside the ASCII range lower-cases to a single
letter of the patterns compared against. -/
def jsToLower (c : Char) : Char :=
  if 'A' ≤ c ∧ c ≤ 'Z' then Char.ofNat (c.toNat + 32) else c

/-- The lines surviving the split, trim and filter pipeline at the top of
parseInput (source lines 97 to 100). -/
def survivorsL (l : List Char) : List (List Char) :=
  ((splitReNewline l).map jsTrim).filter (fun s => !s.isEmpty)

/-- Header test of parseInput (source lines 105 to 109), applied to the
lower-cased first surviving line. -/
def hasHeaderB (firstLine : List Char) : Bool :=
  (firstLine == "id".toList) || (firstLine == "id,description".toList) ||
    ("id,".toList.isPrefixOf firstLine)

/-- parseInput from the source (lines 96 to 113). -/
def parseInput (raw : String) : List WorkItem :=
  match survivorsL raw.toList with
  | [] => []
  | first :: rest =>
    let dataLines := if hasHeaderB (first.map jsToLower) then rest else first :: rest
    dataLines.filterMap parseLineL

/-- The listItem node of the add-mutation response; a missing text field is
modelled as the empty string, matching its JavaScript truthiness. -/
structure ListItemNode where
  titleText : String
  nameText : String
deriving DecidableEq

/-- The modifiedItem node returned by addItemToList; a null or undefined
itemId is modelled as the empty string. -/
structure ModifiedItem where
  itemId : String
  listItem : Option ListItemNode
deriving DecidableEq

/-- The per-item status record built by processItems (source lines 233 to
239). -/
structure ItemStatus where
  id : String
  index : Nat
  ok : Bool
  error : Option String
  title : String
deriving DecidableEq

/-- One onProgress callback, with the arguments of source line 262. -/
structure ProgressEvent where
  done : Nat
  total : Nat
  status : ItemStatus
deriving DecidableEq

/-- A remote mutation call issued through fetch. -/
inductive RemoteCall where
  | add (listId constId : String)
  | editDesc (listId itemId text : String)
deriving DecidableEq

/-- The environment of one processItems run: the useDelay option, the two
remote calls as oracles indexed by item position, and the aborted flag as a
function of the number of reads performed so far. -/
structure Orch where
  useDelay : Bool
  addOracle : Nat → Except String ModifiedItem
  descOracle : Nat → Except String Unit
  getAborted : Nat → Bool

/-- The observable outcome of the processItems loop: the results array, the
trace of onProgress callbacks, the trace of remote calls, and the value of
the flag-read counter when the loop ends. -/
structure LoopOut where
  results : List ItemStatus
  progress : List ProgressEvent
  calls : List RemoteCall
  polls : Nat
deriving DecidableEq

/-- JavaScript string disjunction: the empty string is falsy. -/
def jsOr (a b : String) : String := if a = "" then b else a

/-- The title computation of source lines 244 to 246. -/
def titleFrom (added : ModifiedItem) (fallback : String) : String :=
  jsOr (match added.listItem with | some n => n.titleText | none => "")
    (jsOr (match added.listItem with | some n => n.nameText | none => "") fallback)

/-- The try-catch body of one loop iteration (source lines 233 to 259):
build the status record for the item at position i. -/
def processOne (o : Orch) (item : WorkItem) (i : Nat) : ItemStatus :=
  match o.addOracle i with
  | .error e => ⟨item.id, i, false, some e, ""⟩
  | .ok added =>
    let title := titleFrom added item.id
    if item.description ≠ "" ∧ added.itemId ≠ "" then
      match o.descOracle i with
      | .error e => ⟨item.id, i, false, some e, title⟩
      | .ok _ => ⟨item.id, i, true, none, title⟩
    else ⟨item.id, i, true, none, title⟩

/-- The remote calls issued while processing the item at position i: the add
call always fires, and the edit-description call fires exactly when the add
succeeded, the item has a description, and the response carried an itemId. -/
def itemCalls (o : Orch) (lid : String) (item : WorkItem) (i : Nat) :
    List RemoteCall :=
  match o.addOracle i with
  | .error _ => [.add lid item.id]
  | .ok added =>
    if item.description ≠ "" ∧ added.itemId ≠ "" then
      [.add lid item.id, .editDesc lid added.itemId item.description]
    else [.add lid item.id]

/-- The for loop of processItems (source lines 229 to 268).  The aborted
flag is read once at the top of each iteration, and once more inside the
delay condition when useDelay holds and the item is not the last; the sleep
itself has no observable effect in this model. -/
def processLoop (o : Orch) (lid : String) (total : Nat) :
    List WorkItem → Nat → Nat → LoopOut
  | [], _, p => ⟨[], [], [], p⟩
  | item :: rest, i, p =>
    if o.getAborted p then ⟨[], [], [], p + 1⟩
    else
      let out := processLoop o lid total rest (i + 1)
        (if o.useDelay ∧ i < total - 1 then p + 2 else p + 1)
      ⟨processOne o item i :: out.results,
       ⟨i + 1, total, processOne o item i⟩ :: out.progress,
       itemCalls o lid item i ++ out.calls,
       out.polls⟩

/-- processItems from the source (lines 220 to 271).  The listId argument is
the result of getListId: none models a URL from which no list id can be
resolved, in which case the function throws before the loop, so no remote
call is issued, no onProgress callback fires and no results array is
returned. -/
def processItems (items : List WorkItem) (listId : Option String) (o : Orch) :
    Except String LoopOut :=
  match listId with
  | none => Except.error "Could not determine list ID from URL."
  | some lid => Except.ok (processLoop o lid items.length items 0 0)

/-- The summary the caller derives from a finished run. -/
structure RunReport where
  results : List ItemStatus
  cancelled : Bool
deriving DecidableEq

/-- Models the code that runs after processItems resolves (source line 554):
one final read of the aborted flag decides whether the run counts as
cancelled. -/
def finishRun (o : Orch) (out : LoopOut) : RunReport :=
  ⟨out.results, o.getAborted out.polls⟩

/-- Number of aborted-flag reads per non-final iteration. -/
def stride (o : Orch) : Nat := if o.useDelay then 2 else 1

end BulkUploader

namespace BulkUploader

lemma asString_ne_empty {l : List Char} (h : l ≠ []) : l.asString ≠ "" := by
  intro he
  exact h (by simpa [List.asString] using congrArg String.data he)

lemma sr_lf (rest : List Char) :
    splitReNewline ('\n' :: rest) = [] :: splitReNewline rest := rfl

lemma sr_crlf (rest : List Char) :
    splitReNewline ('\r' :: '\n' :: rest) = [] :: splitReNewline rest := rfl

lemma sr_cons (c : Char) (rest : List Char) (h1 : c ≠ '\n') (h2 : c ≠ '\r') :
    splitReNewline (c :: rest) = prependHead c (splitReNewline rest) := by
  rw [splitReNewline.eq_def]
  split
  · simp_all
  · simp_all
  · simp_all
  · rename_i a c2 rest2 h3 h4 heq
    cases heq
    rfl

lemma sr_no_sep {xs : List Char} (h : ∀ c ∈ xs, c ≠ '\n' ∧ c ≠ '\r') :
    splitReNewline xs = [xs] := by
  induction xs with
  | nil => rfl
  | cons c xs ih =>
    have hc := h c (by simp)
    rw [sr_cons c xs hc.1 hc.2, ih (fun d hd => h d (by simp [hd]))]
    rfl

lemma sr_append_lf {xs : List Char} (ys : List Char)
    (h : ∀ c ∈ xs, c ≠ '\n' ∧ c ≠ '\r') :
    splitReNewline (xs ++ '\n' :: ys) = xs :: splitReNewline ys := by
  induction xs with
  | nil => simp [sr_lf]
  | cons c xs ih =>
    have hc := h c (by simp)
    rw [List.cons_append, sr_cons c _ hc.1 hc.2, ih (fun d hd => h d (by simp [hd]))]
    rfl

lemma sr_append_crlf {xs : List Char} (ys : List Char)
    (h : ∀ c ∈ xs, c ≠ '\n' ∧ c ≠ '\r') :
    splitReNewline (xs ++ '\r' :: '\n' :: ys) = xs :: splitReNewline ys := by
  induction xs with
  | nil => simp [sr_crlf]
  | cons c xs ih =>
    have hc := h c (by simp)
    rw [List.cons_append, sr_cons c _ hc.1 hc.2, ih (fun d hd => h d (by simp [hd]))]
    rfl

lemma surv_no_sep {xs : List Char} (h : ∀ c ∈ xs, c ≠ '\n' ∧ c ≠ '\r') :
    survivorsL xs = if jsTrim xs = [] then [] else [jsTrim xs] := by
  unfold survivorsL
  rw [sr_no_sep h]
  by_cases he : jsTrim xs = [] <;> simp [List.filter_cons, he]

lemma surv_append_lf {xs : List Char} (ys : List Char)
    (h : ∀ c ∈ xs, c ≠ '\n' ∧ c ≠ '\r') :
    survivorsL (xs ++ '\n' :: ys) = survivorsL xs ++ survivorsL ys := by
  unfold survivorsL
  rw [sr_append_lf ys h, sr_no_sep h]
  by_cases he : jsTrim xs = [] <;>
    simp [List.filter_cons, he]

lemma surv_append_crlf {xs : List Char} (ys : List Char)
    (h : ∀ c ∈ xs, c ≠ '\n' ∧ c ≠ '\r') :
    survivorsL (xs ++ '\r' :: '\n' :: ys) = survivorsL xs ++ survivorsL ys := by
  unfold survivorsL
  rw [sr_append_crlf ys h, sr_no_sep h]
  by_cases he : jsTrim xs = [] <;>
    simp [List.filter_cons, he]

lemma parseLineL_id_ne {line : List Char} {w : WorkItem}
    (h : parseLineL line = some w) : w.id ≠ "" := by
  simp only [parseLineL] at h
  split at h
  · exact absurd h (by simp)
  · rename_i hne
    cases h
    exact asString_ne_empty hne

lemma parseLineL_eq_none {line : List Char}
    (h : jsTrim ((splitCSVLine line).headD []) = []) : parseLineL line = none := by
  simp only [parseLineL]
  rw [if_pos h]

lemma parseInput_shape (raw : String) :
    ∃ ds : List (List Char), parseInput raw = ds.filterMap parseLineL := by
  unfold parseInput
  rcases hs : survivorsL raw.toList with _ | ⟨f, rest⟩
  · exact ⟨[], rfl⟩
  · dsimp only
    split
    · exact ⟨rest, rfl⟩
    · exact ⟨f :: rest, rfl⟩

/-- Case-lowered view of a line, used to state case-insensitive comparison. -/
def ciLower (l : List Char) : List Char := l.map jsToLower

/-- The header condition as the specification words it: the first surviving
line, case-insensitively, equals id, equals id,description, or starts with
the three characters id-comma. -/
def specIsHeader (l : List Char) : Prop :=
  ciLower l = "id".toList ∨ ciLower l = "id,description".toList ∨
    "id,".toList <+: ciLower l

lemma hasHeaderB_iff (l : List Char) :
    hasHeaderB (l.map jsToLower) = true ↔ specIsHeader l := by
  simp [hasHeaderB, specIsHeader, ciLower, List.isPrefixOf_iff_prefix, or_assoc]

/-- C6: for every input string, every WorkItem produced by parseInput has a
non-empty id, and a line whose first field trims to the empty string yields
no WorkItem. -/
theorem claim6 :
    (∀ (raw : String) (w : WorkItem), w ∈ parseInput raw → w.id ≠ "") ∧
    (∀ line : List Char, jsTrim ((splitCSVLine line).headD []) = [] →
      parseLineL line = none) := by
  constructor
  · intro raw w hw
    obtain ⟨ds, hds⟩ := parseInput_shape raw
    rw [hds] at hw
    obtain ⟨l, _, hl⟩ := List.mem_filterMap.mp hw
    exact parseLineL_id_ne hl
  · exact fun line h => parseLineL_eq_none h

/-- Witness for C6 at concrete inputs. -/
theorem claim6_witness :
    ((⟨"tt1", ""⟩ : WorkItem) ∈ parseInput "tt1" ∧
      (⟨"tt1", ""⟩ : WorkItem).id ≠ "") ∧
    parseLineL ",x".toList = none :=
  ⟨⟨by decide, claim6.1 "tt1" ⟨"tt1", ""⟩ (by decide)⟩,
    claim6.2 ",x".toList (by decide)⟩

/-- C7: parseInput discards the first surviving line as a header exactly
when, case-insensitively, it equals id, equals id,description, or starts
with id-comma; otherwise all surviving lines are treated as data. -/
theorem claim7 :
    ∀ (raw : String) (first : List Char) (rest : List (List Char)),
      survivorsL raw.toList = first :: rest →
      (specIsHeader first → parseInput raw = rest.filterMap parseLineL) ∧
      (¬ specIsHeader first →
        parseInput raw = (first :: rest).filterMap parseLineL) := by
  intro raw first rest hs
  unfold parseInput
  rw [hs]
  dsimp only
  constructor
  · intro h
    rw [if_pos ((hasHeaderB_iff first).mpr h)]
  · intro h
    rw [if_neg (fun hb => h ((hasHeaderB_iff first).mp hb))]

/-- Witness for C7: the header line id is dropped. -/
theorem claim7_witness :
    parseInput "id\ntt1" = ["tt1".toList].filterMap parseLineL :=
  (claim7 "id\ntt1" "id".toList ["tt1".toList] (by decide)).1 (Or.inl (by decide))

/-- C8: commas inside a double-quoted field do not split the line, and a
doubled double-quote inside a quoted field yields a single literal quote;
in particular the quoted-comma line yields exactly one WorkItem. -/
theorem claim8 :
    parseInput "tt1,\"a, b\"" = [⟨"tt1", "a, b"⟩] ∧
    splitCSVLine "a,\"b, c\",d".toList =
      ["a".toList, "b, c".toList, "d".toList] ∧
    splitCSVLine "\"x\"\"y\",z".toList = ["x\"y".toList, "z".toList] :=
  ⟨by decide, by decide, by decide⟩

/-- C9 counterexample: a lone CR is not treated as a line separator; the
same two ids separated by LF do split, while separated by a lone CR they
stay one line, whose id keeps the CR inside. -/
theorem claim9_cex :
    parseInput "tt1\rtt2" = [⟨"tt1\rtt2", ""⟩] ∧
    parseInput "tt1\ntt2" = [⟨"tt1", ""⟩, ⟨"tt2", ""⟩] :=
  ⟨by decide, by decide⟩

/-- C9 (amended): parseInput splits its input into lines on LF and on CRLF
only (a lone CR is not a separator), trims each line, discards blank lines
and preserves the relative order of the remaining lines. -/
theorem claim9_amended :
    (∀ xs ys : List Char, (∀ c ∈ xs, c ≠ '\n' ∧ c ≠ '\r') →
      survivorsL (xs ++ '\n' :: ys) = survivorsL xs ++ survivorsL ys ∧
      survivorsL (xs ++ '\r' :: '\n' :: ys) = survivorsL xs ++ survivorsL ys) ∧
    (∀ xs : List Char, (∀ c ∈ xs, c ≠ '\n' ∧ c ≠ '\r') →
      survivorsL xs = if jsTrim xs = [] then [] else [jsTrim xs]) :=
  ⟨fun xs ys h => ⟨surv_append_lf ys h, surv_append_crlf ys h⟩,
    fun xs h => surv_no_sep h⟩

/-- Witness for C9 at concrete inputs. -/
theorem claim9_witness :
    survivorsL ("a".toList ++ '\n' :: "b".toList) =
      survivorsL "a".toList ++ survivorsL "b".toList ∧
    survivorsL "a".toList =
      if jsTrim "a".toList = [] then [] else [jsTrim "a".toList] :=
  ⟨(claim9_amended.1 "a".toList "b".toList (by decide)).1,
    claim9_amended.2 "a".toList (by decide)⟩


/-- The statuses an uncancelled run produces for the given items, the first
of which sits at position i. -/
def segResults (o : Orch) : List WorkItem → Nat → List ItemStatus
  | [], _ => []
  | it :: rest, i => processOne o it i :: segResults o rest (i + 1)

/-- The onProgress callbacks an uncancelled run emits for the given items. -/
def segProgress (o : Orch) (total : Nat) :
    List WorkItem → Nat → List ProgressEvent
  | [], _ => []
  | it :: rest, i =>
    ⟨i + 1, total, processOne o it i⟩ :: segProgress o total rest (i + 1)

/-- The remote calls an uncancelled run issues for the given items. -/
def segCalls (o : Orch) (lid : String) : List WorkItem → Nat → List RemoteCall
  | [], _ => []
  | it :: rest, i => itemCalls o lid it i ++ segCalls o lid rest (i + 1)

lemma segResults_length (o : Orch) :
    ∀ (l : List WorkItem) (i : Nat), (segResults o l i).length = l.length := by
  intro l
  induction l with
  | nil => intro i; rfl
  | cons it rest ih => intro i; simp [segResults, ih]

lemma processOne_index (o : Orch) (item : WorkItem) (i : Nat) :
    (processOne o item i).index = i := by
  unfold processOne
  rcases o.addOracle i with e | added
  · rfl
  · dsimp only
    split
    · rcases o.descOracle i with e | u <;> rfl
    · rfl

lemma processOne_id (o : Orch) (item : WorkItem) (i : Nat) :
    (processOne o item i).id = item.id := by
  unfold processOne
  rcases o.addOracle i with e | added
  · rfl
  · dsimp only
    split
    · rcases o.descOracle i with e | u <;> rfl
    · rfl

lemma processOne_ok_iff (o : Orch) (item : WorkItem) (i : Nat) :
    ((processOne o item i).ok = true ↔ (processOne o item i).error = none) := by
  unfold processOne
  rcases o.addOracle i with e | added
  · simp
  · dsimp only
    split
    · rcases o.descOracle i with e | u <;> simp
    · simp

lemma segResults_map_index (o : Orch) :
    ∀ (l : List WorkItem) (i : Nat),
      (segResults o l i).map (fun st => st.index) = List.range' i l.length := by
  intro l
  induction l with
  | nil => intro i; rfl
  | cons it rest ih =>
    intro i
    simp [segResults, processOne_index, ih, List.range'_succ]

lemma segResults_map_id (o : Orch) :
    ∀ (l : List WorkItem) (i : Nat),
      (segResults o l i).map (fun st => st.id) = l.map (fun it => it.id) := by
  intro l
  induction l with
  | nil => intro i; rfl
  | cons it rest ih =>
    intro i
    simp [segResults, processOne_id, ih]

lemma segResults_get? (o : Orch) :
    ∀ (l : List WorkItem) (i j : Nat),
      (segResults o l i).get? j = (l.get? j).map (fun it => processOne o it (i + j)) := by
  intro l
  induction l with
  | nil => intro i j; rfl
  | cons it rest ih =>
    intro i j
    rcases j with _ | j
    · simp [segResults]
    · simp only [segResults, List.get?]
      rw [ih (i + 1) j]
      congr 1
      funext it2
      congr 1
      omega

lemma segProgress_map_status (o : Orch) (total : Nat) :
    ∀ (l : List WorkItem) (i : Nat),
      (segProgress o total l i).map (fun pr => pr.status) = segResults o l i := by
  intro l
  induction l with
  | nil => intro i; rfl
  | cons it rest ih =>
    intro i
    simp [segProgress, segResults, ih]

lemma segProgress_length (o : Orch) (total : Nat) :
    ∀ (l : List WorkItem) (i : Nat),
      (segProgress o total l i).length = l.length := by
  intro l
  induction l with
  | nil => intro i; rfl
  | cons it rest ih => intro i; simp [segProgress, ih]

lemma processLoop_noCancel (o : Orch) (lid : String) (total : Nat)
    (h : ∀ n, o.getAborted n = false) :
    ∀ (rest : List WorkItem) (i p : Nat),
      (processLoop o lid total rest i p).results = segResults o rest i ∧
      (processLoop o lid total rest i p).progress = segProgress o total rest i ∧
      (processLoop o lid total rest i p).calls = segCalls o lid rest i := by
  intro rest
  induction rest with
  | nil => intro i p; exact ⟨rfl, rfl, rfl⟩
  | cons it rest ih =>
    intro i p
    obtain ⟨h1, h2, h3⟩ :=
      ih (i + 1) (if o.useDelay ∧ i < total - 1 then p + 2 else p + 1)
    refine ⟨?_, ?_, ?_⟩ <;>
      simp [processLoop, h, h1, h2, h3, segResults, segProgress, segCalls]

lemma processLoop_results_ok (o : Orch) (lid : String) (total : Nat) :
    ∀ (rest : List WorkItem) (i p : Nat) (st : ItemStatus),
      st ∈ (processLoop o lid total rest i p).results →
      (st.ok = true ↔ st.error = none) := by
  intro rest
  induction rest with
  | nil => intro i p st hst; simp [processLoop] at hst
  | cons it rest ih =>
    intro i p st hst
    by_cases hb : o.getAborted p
    · simp [processLoop, hb] at hst
    · simp only [processLoop, hb, Bool.false_eq_true, if_false,
        List.mem_cons] at hst
      rcases hst with h | h
      · subst h; exact processOne_ok_iff o it i
      · exact ih _ _ st h

lemma processLoop_progress_status (o : Orch) (lid : String) (total : Nat) :
    ∀ (rest : List WorkItem) (i p : Nat),
      (processLoop o lid total rest i p).progress.map (fun pr => pr.status) =
        (processLoop o lid total rest i p).results := by
  intro rest
  induction rest with
  | nil => intro i p; rfl
  | cons it rest ih =>
    intro i p
    by_cases hb : o.getAborted p
    · simp [processLoop, hb]
    · simp [processLoop, hb, ih]


lemma delay_poll_eq (o : Orch) (i total p : Nat) (hlt : i < total - 1) :
    (if o.useDelay ∧ i < total - 1 then p + 2 else p + 1) = p + stride o := by
  unfold stride
  rcases hu : o.useDelay
  · simp [hu]
  · simp [hu, hlt]

lemma processLoop_cancel (o : Orch) (lid : String) (total : Nat) :
    ∀ (k : Nat) (rest : List WorkItem) (i p : Nat),
      i + rest.length = total →
      i + k + 1 < total →
      (∀ q, q ≤ p + k * stride o → o.getAborted q = false) →
      o.getAborted (p + (k + 1) * stride o) = true →
      processLoop o lid total rest i p =
        ⟨segResults o (rest.take (k + 1)) i,
         segProgress o total (rest.take (k + 1)) i,
         segCalls o lid (rest.take (k + 1)) i,
         p + (k + 1) * stride o + 1⟩ := by
  intro k
  induction k with
  | zero =>
    intro rest i p hlen hlt hfalse htrue
    rcases rest with _ | ⟨it, rest⟩
    · simp at hlen; omega
    rcases rest with _ | ⟨it2, rest⟩
    · simp at hlen; omega
    have hp : o.getAborted p = false := hfalse p (by omega)
    have hdelay := delay_poll_eq o i total p (by omega)
    have hnext : o.getAborted (p + stride o) = true := by
      have he : p + (0 + 1) * stride o = p + stride o := by ring
      rwa [he] at htrue
    simp only [processLoop, hp, Bool.false_eq_true, if_false, hdelay, hnext,
      if_true, List.take, segResults, segProgress, segCalls]
    refine LoopOut.mk.injEq .. |>.mpr ⟨rfl, rfl, by simp, by ring⟩
  | succ k ih =>
    intro rest i p hlen hlt hfalse htrue
    rcases rest with _ | ⟨it, rest⟩
    · simp at hlen; omega
    have hp : o.getAborted p = false := hfalse p (by omega)
    have hdelay := delay_poll_eq o i total p (by omega)
    have hfalse2 : ∀ q, q ≤ (p + stride o) + k * stride o →
        o.getAborted q = false := by
      intro q hq
      apply hfalse
      have he : p + (k + 1) * stride o = (p + stride o) + k * stride o := by ring
      omega
    have htrue2 : o.getAborted ((p + stride o) + (k + 1) * stride o) = true := by
      have he : p + (k + 1 + 1) * stride o = (p + stride o) + (k + 1) * stride o := by
        ring
      rwa [he] at htrue
    have hrec := ih rest (i + 1) (p + stride o) (by simp at hlen; omega)
      (by omega) hfalse2 htrue2
    simp only [processLoop, hp, Bool.false_eq_true, if_false, hdelay, hrec,
      List.take, segResults, segProgress, segCalls]
    refine LoopOut.mk.injEq .. |>.mpr ⟨rfl, rfl, rfl, by ring⟩


/-- C1 counterexample: one item whose add call succeeds (with a title and
an itemId in the response) and whose description update fails.  The
recorded outcome has ok = false and carries the description-update error,
so the annotation failure does flip the outcome to failed, contrary to the
claim. -/
theorem claim1_cex :
    (processItems [⟨"tt1", "great"⟩] (some "ls1")
        ⟨false, fun _ => .ok ⟨"li1", some ⟨"The Title", ""⟩⟩,
          fun _ => .error "desc failed", fun _ => false⟩).toOption.map
      (fun out => out.results.map (fun st => (st.ok, st.error, st.title))) =
    some [(false, some "desc failed", "The Title")] := by decide

/-- C1 (amended): if the add call succeeds but the description update is
attempted and fails, the outcome is recorded as failed: ok = false and
error is the description-update message.  The add itself is not undone:
both remote calls were issued and the title from the successful add is
kept on the failed status. -/
theorem claim1_amended (o : Orch) (lid : String) (item : WorkItem) (i : Nat)
    (added : ModifiedItem) (e : String)
    (hadd : o.addOracle i = .ok added)
    (hdesc : item.description ≠ "") (hid : added.itemId ≠ "")
    (hfail : o.descOracle i = .error e) :
    (processOne o item i).ok = false ∧
    (processOne o item i).error = some e ∧
    (processOne o item i).title = titleFrom added item.id ∧
    itemCalls o lid item i =
      [.add lid item.id, .editDesc lid added.itemId item.description] := by
  unfold processOne itemCalls
  rw [hadd]
  dsimp only
  rw [if_pos ⟨hdesc, hid⟩, if_pos ⟨hdesc, hid⟩, hfail]
  exact ⟨rfl, rfl, rfl, rfl⟩

/-- Witness for the amended C1 at a concrete input. -/
theorem claim1_witness :
    (processOne
        ⟨false, fun _ => .ok ⟨"li1", some ⟨"The Title", ""⟩⟩,
          fun _ => .error "desc failed", fun _ => false⟩
        ⟨"tt1", "great"⟩ 0).ok = false ∧
    (processOne
        ⟨false, fun _ => .ok ⟨"li1", some ⟨"The Title", ""⟩⟩,
          fun _ => .error "desc failed", fun _ => false⟩
        ⟨"tt1", "great"⟩ 0).error = some "desc failed" ∧
    (processOne
        ⟨false, fun _ => .ok ⟨"li1", some ⟨"The Title", ""⟩⟩,
          fun _ => .error "desc failed", fun _ => false⟩
        ⟨"tt1", "great"⟩ 0).title =
      titleFrom ⟨"li1", some ⟨"The Title", ""⟩⟩ "tt1" ∧
    itemCalls
        ⟨false, fun _ => .ok ⟨"li1", some ⟨"The Title", ""⟩⟩,
          fun _ => .error "desc failed", fun _ => false⟩
        "ls1" ⟨"tt1", "great"⟩ 0 =
      [.add "ls1" "tt1", .editDesc "ls1" "li1" "great"] :=
  claim1_amended _ "ls1" ⟨"tt1", "great"⟩ 0 ⟨"li1", some ⟨"The Title", ""⟩⟩
    "desc failed" rfl (by decide) (by decide) rfl

/-- C3: when the list identifier cannot be resolved, processItems throws
before the loop runs.  The error result carries no LoopOut, so no remote
call is issued, no onProgress callback fires and no report is produced. -/
theorem claim3 (items : List WorkItem) (o : Orch) :
    processItems items none o =
      Except.error "Could not determine list ID from URL." := rfl

/-- C4: with a resolvable list id processItems never throws, and, in an
uncancelled run, an add failure at position j is caught and converted into
the outcome with ok = false and error set to the message, while the run
still processes every item. -/
theorem claim4 (items : List WorkItem) (lid : String) (o : Orch) :
    processItems items (some lid) o =
      Except.ok (processLoop o lid items.length items 0 0) ∧
    ((∀ n, o.getAborted n = false) →
      ∀ (j : Nat) (it : WorkItem) (e : String),
        items.get? j = some it → o.addOracle j = .error e →
        (processLoop o lid items.length items 0 0).results.get? j =
          some ⟨it.id, j, false, some e, ""⟩ ∧
        (processLoop o lid items.length items 0 0).results.length =
          items.length) := by
  refine ⟨rfl, ?_⟩
  intro hnc j it e hj he
  obtain ⟨h1, h2, h3⟩ := processLoop_noCancel o lid items.length hnc items 0 0
  constructor
  · rw [h1, segResults_get? o items 0 j, hj]
    simp [processOne, he]
  · rw [h1, segResults_length]

/-- Witness for C4 at a concrete input. -/
theorem claim4_witness :
    (processLoop
        ⟨false, fun i => if i = 1 then .error "HTTP 500" else .ok ⟨"", none⟩,
          fun _ => .ok (), fun _ => false⟩
        "ls9" ([⟨"a", ""⟩, ⟨"b", ""⟩] : List WorkItem).length [⟨"a", ""⟩, ⟨"b", ""⟩]
        0 0).results.get? 1 = some ⟨"b", 1, false, some "HTTP 500", ""⟩ ∧
    (processLoop
        ⟨false, fun i => if i = 1 then .error "HTTP 500" else .ok ⟨"", none⟩,
          fun _ => .ok (), fun _ => false⟩
        "ls9" ([⟨"a", ""⟩, ⟨"b", ""⟩] : List WorkItem).length [⟨"a", ""⟩, ⟨"b", ""⟩]
        0 0).results.length = ([⟨"a", ""⟩, ⟨"b", ""⟩] : List WorkItem).length :=
  (claim4 [⟨"a", ""⟩, ⟨"b", ""⟩] "ls9"
      ⟨false, fun i => if i = 1 then .error "HTTP 500" else .ok ⟨"", none⟩,
        fun _ => .ok (), fun _ => false⟩).2
    (fun n => rfl) 1 ⟨"b", ""⟩ "HTTP 500" (by decide) rfl

/-- C5: an uncancelled run over N items emits exactly N onProgress
callbacks, one per item, in input order with index fields 0..N-1, the
results keep the item ids in order, and the final report has length N and
does not count as cancelled. -/
theorem claim5 (items : List WorkItem) (lid : String) (o : Orch)
    (hnc : ∀ n, o.getAborted n = false) :
    processItems items (some lid) o =
      Except.ok (processLoop o lid items.length items 0 0) ∧
    (processLoop o lid items.length items 0 0).results.length = items.length ∧
    (processLoop o lid items.length items 0 0).progress.length = items.length ∧
    (processLoop o lid items.length items 0 0).progress.map
        (fun pr => pr.status.index) = List.range items.length ∧
    (processLoop o lid items.length items 0 0).results.map (fun st => st.id) =
      items.map (fun it => it.id) ∧
    (finishRun o (processLoop o lid items.length items 0 0)).cancelled =
      false := by
  obtain ⟨h1, h2, h3⟩ := processLoop_noCancel o lid items.length hnc items 0 0
  refine ⟨rfl, ?_, ?_, ?_, ?_, ?_⟩
  · rw [h1, segResults_length]
  · rw [h2, segProgress_length]
  · have hcomp :
        (segProgress o items.length items 0).map (fun pr => pr.status.index) =
          ((segProgress o items.length items 0).map (fun pr => pr.status)).map
            (fun st => st.index) := by
      rw [List.map_map]; rfl
    rw [h2, hcomp, segProgress_map_status, segResults_map_index,
      List.range_eq_range']
  · rw [h1, segResults_map_id]
  · simp [finishRun, hnc]

/-- Witness for C5 at a concrete input. -/
theorem claim5_witness :
    (processLoop ⟨true, fun _ => .ok ⟨"", none⟩, fun _ => .ok (), fun _ => false⟩
        "ls2" ([⟨"a", ""⟩, ⟨"b", "d"⟩] : List WorkItem).length [⟨"a", ""⟩, ⟨"b", "d"⟩]
        0 0).progress.map (fun pr => pr.status.index) =
      List.range ([⟨"a", ""⟩, ⟨"b", "d"⟩] : List WorkItem).length ∧
    (finishRun ⟨true, fun _ => .ok ⟨"", none⟩, fun _ => .ok (), fun _ => false⟩
        (processLoop
          ⟨true, fun _ => .ok ⟨"", none⟩, fun _ => .ok (), fun _ => false⟩
          "ls2" ([⟨"a", ""⟩, ⟨"b", "d"⟩] : List WorkItem).length [⟨"a", ""⟩, ⟨"b", "d"⟩]
          0 0)).cancelled = false := by
  have h := claim5 [⟨"a", ""⟩, ⟨"b", "d"⟩] "ls2"
    ⟨true, fun _ => .ok ⟨"", none⟩, fun _ => .ok (), fun _ => false⟩
    (fun n => rfl)
  exact ⟨h.2.2.2.1, h.2.2.2.2.2⟩

/-- C10: every outcome the loop records, and every outcome passed to an
onProgress callback, has ok = true exactly when error = none. -/
theorem claim10 (items : List WorkItem) (lid : String) (o : Orch)
    (out : LoopOut) (hout : processItems items (some lid) o = Except.ok out) :
    (∀ st ∈ out.results, (st.ok = true ↔ st.error = none)) ∧
    (∀ pr ∈ out.progress, (pr.status.ok = true ↔ pr.status.error = none)) := by
  have hout2 : out = processLoop o lid items.length items 0 0 := by
    have := hout
    simp only [processItems, Except.ok.injEq] at this
    exact this.symm
  subst hout2
  constructor
  · intro st hst
    exact processLoop_results_ok o lid items.length items 0 0 st hst
  · intro pr hpr
    have hmem : pr.status ∈
        (processLoop o lid items.length items 0 0).progress.map
          (fun pr2 => pr2.status) :=
      List.mem_map.mpr ⟨pr, hpr, rfl⟩
    rw [processLoop_progress_status] at hmem
    exact processLoop_results_ok o lid items.length items 0 0 pr.status hmem

/-- Witness for C10 at a concrete input. -/
theorem claim10_witness :
    ((⟨"a", 0, true, none, "a"⟩ : ItemStatus).ok = true ↔
      (⟨"a", 0, true, none, "a"⟩ : ItemStatus).error = none) :=
  (claim10 [⟨"a", ""⟩] "ls3"
      ⟨false, fun _ => .ok ⟨"", none⟩, fun _ => .ok (), fun _ => false⟩
      (processLoop
        ⟨false, fun _ => .ok ⟨"", none⟩, fun _ => .ok (), fun _ => false⟩
        "ls3" [(⟨"a", ""⟩ : WorkItem)].length [⟨"a", ""⟩] 0 0) rfl).1
    ⟨"a", 0, true, none, "a"⟩ (by decide)


/-- C2: with a monotone aborted flag that is still false at the read
opening iteration K and true at the read opening iteration K+1, the run
stops after item K: exactly K+1 outcomes are recorded, in input order with
index fields 0..K, the in-flight item K included; the remote calls are
those of items 0..K only, every recorded outcome is also reported through
onProgress, and the final report counts as cancelled.  With one flag read
per iteration top and, when the delay option is on, one more read in the
delay guard of each non-final iteration, the read opening iteration j is
read number j * stride. -/
theorem claim2 (items : List WorkItem) (lid : String) (o : Orch) (K : Nat)
    (hmono : ∀ m n, m ≤ n → o.getAborted m = true → o.getAborted n = true)
    (hK : K + 1 < items.length)
    (hfalse : o.getAborted (K * stride o) = false)
    (htrue : o.getAborted ((K + 1) * stride o) = true) :
    processItems items (some lid) o =
      Except.ok (processLoop o lid items.length items 0 0) ∧
    (processLoop o lid items.length items 0 0).results.length = K + 1 ∧
    (processLoop o lid items.length items 0 0).results.map
        (fun st => st.index) = List.range (K + 1) ∧
    (processLoop o lid items.length items 0 0).results.map (fun st => st.id) =
      (items.take (K + 1)).map (fun it => it.id) ∧
    (processLoop o lid items.length items 0 0).progress.map
        (fun pr => pr.status) =
      (processLoop o lid items.length items 0 0).results ∧
    (processLoop o lid items.length items 0 0).calls =
      segCalls o lid (items.take (K + 1)) 0 ∧
    (finishRun o (processLoop o lid items.length items 0 0)).cancelled =
      true := by
  have hfa : ∀ q, q ≤ 0 + K * stride o → o.getAborted q = false := by
    intro q hq
    cases hgq : o.getAborted q
    · rfl
    · have := hmono q (K * stride o) (by omega) hgq
      rw [hfalse] at this
      exact this.symm
  have hta : o.getAborted (0 + (K + 1) * stride o) = true := by simpa using htrue
  have hmain := processLoop_cancel o lid items.length K items 0 0 (by simp)
    (by omega) hfa hta
  have htk : (items.take (K + 1)).length = K + 1 := by
    rw [List.length_take]
    omega
  refine ⟨rfl, ?_, ?_, ?_, ?_, ?_, ?_⟩
  · rw [hmain]
    show (segResults o (items.take (K + 1)) 0).length = K + 1
    rw [segResults_length, htk]
  · rw [hmain]
    show (segResults o (items.take (K + 1)) 0).map (fun st => st.index) =
      List.range (K + 1)
    rw [segResults_map_index, htk, List.range_eq_range']
  · rw [hmain]
    show (segResults o (items.take (K + 1)) 0).map (fun st => st.id) =
      (items.take (K + 1)).map (fun it => it.id)
    rw [segResults_map_id]
  · rw [hmain]
    show (segProgress o items.length (items.take (K + 1)) 0).map
        (fun pr => pr.status) = segResults o (items.take (K + 1)) 0
    rw [segProgress_map_status]
  · rw [hmain]
  · rw [hmain]
    show o.getAborted (0 + (K + 1) * stride o + 1) = true
    exact hmono _ _ (by omega) hta

/-- Witness for C2 at a concrete input: three items, no delay, the flag
becomes true from the second read on, so only the first item runs. -/
theorem claim2_witness :
    (processLoop
        ⟨false, fun _ => .ok ⟨"", none⟩, fun _ => .ok (),
          fun n => decide (1 ≤ n)⟩
        "ls4" ([⟨"a", ""⟩, ⟨"b", ""⟩, ⟨"c", ""⟩] : List WorkItem).length
        [⟨"a", ""⟩, ⟨"b", ""⟩, ⟨"c", ""⟩] 0 0).results.length = 0 + 1 ∧
    (finishRun
        ⟨false, fun _ => .ok ⟨"", none⟩, fun _ => .ok (),
          fun n => decide (1 ≤ n)⟩
        (processLoop
          ⟨false, fun _ => .ok ⟨"", none⟩, fun _ => .ok (),
            fun n => decide (1 ≤ n)⟩
          "ls4" ([⟨"a", ""⟩, ⟨"b", ""⟩, ⟨"c", ""⟩] : List WorkItem).length
          [⟨"a", ""⟩, ⟨"b", ""⟩, ⟨"c", ""⟩] 0 0)).cancelled = true := by
  have h := claim2 [⟨"a", ""⟩, ⟨"b", ""⟩, ⟨"c", ""⟩] "ls4"
    ⟨false, fun _ => .ok ⟨"", none⟩, fun _ => .ok (), fun n => decide (1 ≤ n)⟩
    0
    (by
      intro m n hmn hm
      simp only [decide_eq_true_eq] at hm ⊢
      omega)
    (by decide) (by decide) (by decide)
  exact ⟨h.2.1, h.2.2.2.2.2.2⟩

end BulkUploader
